import Mathlib

/-!
Verification of the health-dashboard tabular ingestion-and-query engine.

The definitions below are a shallow embedding of the JavaScript source of
the dashboard component (generateStableId, HEADER_ALIASES, normalizeHeader,
mapHeader, extractYear, extractYearMonth, aggregateTopMarkers, applyFilters,
yearList, parseCSVData, clearData).  JavaScript strings are modelled as Lean
strings; a missing (undefined) field of a row object is modelled as
Option.none; 32-bit signed integer arithmetic is modelled on Int with an
explicit reduction modulo 2 ^ 32; case conversion is modelled on the ASCII
range, which is the range exercised by the alias table and the sentinels.
-/

namespace HealthDashboard

/-! ### JavaScript string and number primitives -/

/-- ASCII lower-casing of one character, modelling the effect of
String.prototype.toLowerCase on the ASCII range. -/
def lowerChar (c : Char) : Char :=
  if 'A' ≤ c && c ≤ 'Z' then Char.ofNat (c.toNat + 32) else c

/-- Lower-case a string character by character. -/
def jsLower (s : String) : String :=
  String.mk (s.data.map lowerChar)

/-- ASCII whitespace, the characters matched by the regex class backslash-s
that can occur in header text. -/
def isWsChar (c : Char) : Bool :=
  c == ' ' || c == '\t' || c == '\n' || c == '\r' || c == '\x0b' || c == '\x0c'

/-- Remove leading and trailing whitespace, modelling String.prototype.trim. -/
def jsTrim (s : String) : String :=
  String.mk (((s.data.dropWhile isWsChar).reverse.dropWhile isWsChar).reverse)

/-- Replace every maximal run of whitespace by a single underscore; the flag
records whether the previous character belonged to a whitespace run.  This
models replacing the regex backslash-s-plus globally by an underscore. -/
def collapseWsAux : Bool → List Char → List Char
  | _, [] => []
  | prevWs, c :: rest =>
    if isWsChar c then
      if prevWs then collapseWsAux true rest
      else '_' :: collapseWsAux true rest
    else c :: collapseWsAux false rest

/-- Numeric value of a list of decimal digit characters. -/
def decVal (l : List Char) : Nat :=
  l.foldl (fun n c => n * 10 + (c.toNat - 48)) 0

/-- Longest leading run of decimal digits, interpreted as a number; none when
the run is empty.  Helper for the parseInt model. -/
def parseDigits (l : List Char) : Option Nat :=
  let ds := l.takeWhile Char.isDigit
  if ds.isEmpty then none else some (decVal ds)

/-- Model of the global parseInt applied without an explicit radix to the
decimal strings produced by the date classifier: skip leading whitespace,
read an optional sign and then the longest run of decimal digits; none
models NaN. -/
def jsParseInt (s : String) : Option Int :=
  match s.data.dropWhile isWsChar with
  | [] => none
  | c :: rest =>
    if c = '-' then (parseDigits rest).map (fun n => -(n : Int))
    else if c = '+' then (parseDigits rest).map (fun n => (n : Int))
    else (parseDigits (c :: rest)).map (fun n => (n : Int))

/-- UTF-16 code units of one Unicode code point: code points below 2 ^ 16 are
one code unit, the rest become a surrogate pair. -/
def utf16Units (c : Char) : List Nat :=
  if c.toNat < 65536 then [c.toNat]
  else [55296 + (c.toNat - 65536) / 1024, 56320 + (c.toNat - 65536) % 1024]

/-- The UTF-16 code units of a string, the values returned by charCodeAt. -/
def codeUnits (s : String) : List Nat :=
  s.data.flatMap utf16Units

/-- Reduce an integer to the 32-bit signed range, the effect of the ToInt32
conversion performed by the JavaScript bitwise operators. -/
def toInt32 (n : Int) : Int :=
  if n % 4294967296 < 2147483648 then n % 4294967296
  else n % 4294967296 - 4294967296

/-! ### Records and the record materializer -/

/-- A materialized row: the canonical fields used by the engine.  A field
that the source row does not supply is none; an empty cell is some "". -/
structure Record where
  id : Option String := none
  marker : Option String := none
  provider : Option String := none
  date : Option String := none
  value : Option String := none
deriving DecidableEq

/-- Model of the JavaScript expression a-or-else-b on strings: the empty
string is falsy, every other string is truthy. -/
def jsOrElse (a b : String) : String :=
  if a = "" then b else a

/-- The composite key date-pipe-provider-pipe-marker-pipe-value built by
generateStableId, with the empty string substituted for a missing field. -/
def compositeKey (r : Record) : String :=
  r.date.getD "" ++ "|" ++ r.provider.getD "" ++ "|" ++ r.marker.getD "" ++ "|" ++ r.value.getD ""

/-- One iteration of the loop body of generateStableId:
hash = ((hash << 5) - hash) + char followed by hash = hash & hash.
The shift returns a 32-bit signed value, the subtraction and addition are
exact, and the bitwise and reduces back to 32-bit signed. -/
def hashStep (h : Int) (c : Nat) : Int :=
  toInt32 (toInt32 (h * 32) - h + c)

/-- The rolling hash of generateStableId over the UTF-16 code units of a
string, starting from 0. -/
def jsHash (s : String) : Int :=
  (codeUnits s).foldl hashStep 0

/-- generateStableId from the source: hash the composite key and render the
absolute value in decimal. -/
def generateStableId (r : Record) : String :=
  (Int.natAbs (jsHash (compositeKey r))).repr

/-- Modelled from the spec, for comparison with the source hash: one step of
the standard polynomial rolling hash, hash times 31 plus code, truncated to
32-bit signed. -/
def specHashStep (h : Int) (c : Nat) : Int :=
  toInt32 (h * 31 + c)

/-- Modelled from the spec: the 32-bit signed rolling multiply-and-add hash
over the UTF-16 code units of a string. -/
def specHash31 (s : String) : Int :=
  (codeUnits s).foldl specHashStep 0

/-- The synthetic id the spec describes, as a function of the four key
fields only: decimal rendering of the absolute value of the rolling hash of
the pipe-delimited composite key. -/
def specIdOf (d p m v : Option String) : String :=
  (Int.natAbs (specHash31 (d.getD "" ++ "|" ++ p.getD "" ++ "|" ++ m.getD "" ++ "|" ++ v.getD ""))).repr

/-- Materialize one parsed row: keep every field and assign
id = row.id or-else generateStableId(row), as in parseCSVData. -/
def materializeRow (r : Record) : Record :=
  { r with id := some (jsOrElse (r.id.getD "") (generateStableId r)) }

/-! ### Basic lemmas about the hash and decimal rendering -/

theorem toInt32_eq_of_emod_eq {a b : Int} (h : a % 4294967296 = b % 4294967296) :
    toInt32 a = toInt32 b := by
  unfold toInt32
  rw [h]

theorem hashStep_eq_specHashStep : hashStep = specHashStep := by
  funext h c
  unfold hashStep specHashStep toInt32
  split <;> split <;> split <;> omega

theorem jsHash_eq_specHash31 (s : String) : jsHash s = specHash31 s := by
  unfold jsHash specHash31
  rw [hashStep_eq_specHashStep]

theorem generateStableId_eq_specIdOf (r : Record) :
    generateStableId r = specIdOf r.date r.provider r.marker r.value := by
  unfold generateStableId specIdOf compositeKey
  rw [jsHash_eq_specHash31]

theorem string_mk_eq_empty_iff (l : List Char) : (String.mk l = "") ↔ l = [] :=
  ⟨fun h => congrArg String.data h, fun h => by rw [h]⟩

theorem toDigitsCore_len_ge (b : Nat) : ∀ (f n : Nat) (acc : List Char),
    acc.length ≤ (Nat.toDigitsCore b f n acc).length := by
  intro f
  induction f with
  | zero => intro n acc; simp [Nat.toDigitsCore]
  | succ f ih =>
    intro n acc
    simp only [Nat.toDigitsCore]
    split
    · simp
    · calc acc.length ≤ (Nat.digitChar (n % b) :: acc).length := by simp
        _ ≤ _ := ih _ _

theorem toDigits_len_ge (n : Nat) : 1 ≤ (Nat.toDigits 10 n).length := by
  simp only [Nat.toDigits, Nat.toDigitsCore]
  by_cases h : n / 10 = 0
  · simp [h]
  · simp only [h, if_false]
    calc 1 ≤ ([Nat.digitChar (n % 10)] : List Char).length := by simp
      _ ≤ _ := toDigitsCore_len_ge 10 _ _ _

theorem repr_ne_empty (n : Nat) : Nat.repr n ≠ "" := by
  intro hc
  have h := toDigits_len_ge n
  unfold Nat.repr at hc
  rw [List.asString] at hc
  rw [(string_mk_eq_empty_iff _).mp hc] at h
  simp at h

theorem generateStableId_ne_empty (r : Record) : generateStableId r ≠ "" :=
  repr_ne_empty _

/-! ### Claim C1 -/

/-- C1: when the id field of a row is missing or empty, the materialized
record receives the synthetic id: the decimal rendering of the absolute
value of the 32-bit signed rolling hash, hash times 31 plus code, over the
UTF-16 code units of the composite key date-provider-marker-value with the
empty string substituted for missing components.  The right-hand side is a
function of the four key fields only, so re-running materialization on
byte-identical input reproduces the ids. -/
theorem syntheticId_spec (r : Record) (h : r.id = none ∨ r.id = some "") :
    (materializeRow r).id = some (specIdOf r.date r.provider r.marker r.value) := by
  have hid : r.id.getD "" = "" := by
    rcases h with h | h <;> rw [h] <;> rfl
  unfold materializeRow jsOrElse
  rw [hid]
  simp [generateStableId_eq_specIdOf]

/-- Concrete instance of the C1 theorem at the row with every field missing:
the composite key is three pipes and its hash renders as 123132. -/
theorem syntheticId_spec_witness :
    (({} : Record).id = none ∨ ({} : Record).id = some "")
      ∧ (materializeRow {}).id = some (specIdOf none none none none) :=
  ⟨Or.inl rfl, syntheticId_spec {} (Or.inl rfl)⟩

/-! ### Claim C2 -/

/-- C2: every materialized record carries a non-empty id: the supplied id
verbatim when the row has a non-empty one, and otherwise the deterministic
synthetic id computed from the date, provider, marker and value fields. -/
theorem materialize_id_spec (r : Record) :
    (materializeRow r).id.getD "" ≠ ""
      ∧ (materializeRow r).id
          = some (jsOrElse (r.id.getD "") (specIdOf r.date r.provider r.marker r.value)) := by
  constructor
  · unfold materializeRow jsOrElse
    by_cases h : r.id.getD "" = "" <;>
      simp [h, generateStableId_ne_empty]
  · unfold materializeRow jsOrElse
    by_cases h : r.id.getD "" = "" <;>
      simp [h, generateStableId_eq_specIdOf]

/-! ### Header normalizer -/

/-- True for lower-case ASCII letters and digits, the character class kept
by normalizeHeader. -/
def isLowerAlnum (c : Char) : Bool :=
  ('a' ≤ c && c ≤ 'z') || ('0' ≤ c && c ≤ '9')

/-- normalizeHeader from the source: lower-case, then strip every character
outside lower-case letters and digits. -/
def normalizeHeader (header : String) : String :=
  String.mk ((jsLower header).data.filter isLowerAlnum)

/-- HEADER_ALIASES from the source, in the declaration order of the object
literal, which is the order Object.entries enumerates its keys. -/
def HEADER_ALIASES : List (String × List String) :=
  [("id", ["id", "uid", "recordid"]),
   ("marker", ["marker", "test", "name", "testname"]),
   ("provider", ["provider", "doctor", "physician"]),
   ("date", ["date", "sampledate", "specimendate", "testdate"]),
   ("value", ["value", "result", "testvalue"]),
   ("reference_range", ["reference", "referencerange", "refrange", "range"]),
   ("lab", ["lab", "laboratory"]),
   ("source_file", ["sourcefile", "source", "file"])]

/-- The fallback key of mapHeader: trim, lower-case and collapse internal
whitespace runs to single underscores. -/
def fallbackKey (header : String) : String :=
  String.mk (collapseWsAux false (jsLower (jsTrim header)).data)

/-- The loop of mapHeader over the alias table: return the first canonical
key one of whose aliases normalizes to the given token. -/
def findCanonical (normalized : String) : List (String × List String) → Option String
  | [] => none
  | (canonical, aliases) :: rest =>
    if aliases.any (fun a => normalizeHeader a == normalized) then some canonical
    else findCanonical normalized rest

/-- mapHeader from the source: normalize the header, look it up in the alias
table, and fall back to the trimmed lower-cased underscored header. -/
def mapHeader (header : String) : String :=
  match findCanonical (normalizeHeader header) HEADER_ALIASES with
  | some canonical => canonical
  | none => fallbackKey header

/-- Restatement of the algorithm in the vocabulary of the spec: the first
table entry whose set of normalized alias tokens contains the normalized
header token, with List.find? expressing first-in-table-order. -/
def specMapHeader (header : String) : String :=
  match HEADER_ALIASES.find?
      (fun e => (e.2.map normalizeHeader).contains (normalizeHeader header)) with
  | some e => e.1
  | none => fallbackKey header

theorem findCanonical_eq_find? (n : String) (t : List (String × List String)) :
    findCanonical n t
      = (t.find? (fun e => (e.2.map normalizeHeader).contains n)).map Prod.fst := by
  induction t with
  | nil => rfl
  | cons e rest ih =>
    have hc : (e.2.map normalizeHeader).contains n = e.2.any (fun a => normalizeHeader a == n) := by
      induction e.2 with
      | nil => rfl
      | cons a l iha =>
        simp only [List.map_cons, List.contains_cons, List.any_cons, iha]
        rw [BEq.comm]
    unfold findCanonical
    by_cases h : e.2.any (fun a => normalizeHeader a == n) = true
    · rw [if_pos h, List.find?_cons_of_pos _ (by rw [hc]; exact h)]
      rfl
    · rw [if_neg h, ih, List.find?_cons_of_neg _ (by rw [hc]; simpa using h)]

/-! ### Claim C6 -/

/-- C6: header normalization is total and pure: it lower-cases the header,
strips every character that is not a lower-case letter or digit, returns the
first canonical key in table order whose normalized alias set contains the
token, and otherwise returns the header trimmed, lower-cased and with
whitespace runs collapsed to single underscores.  Totality is by
construction; the equation identifies the source loop with the
first-match-in-table-order description of the spec. -/
theorem mapHeader_spec (header : String) : mapHeader header = specMapHeader header := by
  unfold mapHeader specMapHeader
  rw [findCanonical_eq_find?]
  cases HEADER_ALIASES.find?
      (fun e => (e.2.map normalizeHeader).contains (normalizeHeader header)) <;> rfl

/-! ### Date classifier

The host Date parser invoked by new Date(dateStr) is implementation defined,
so it enters the embedding as an explicit parameter: a function returning
the calendar fields of the parsed instant, or none when the result is an
invalid date.  Everything the classifier does around that call is embedded
from the source. -/

/-- The calendar fields the classifier reads from a successfully parsed
date: getFullYear and the 0-based getMonth. -/
structure CalDate where
  year : Int
  month : Nat
deriving DecidableEq

/-- Leftmost window of four consecutive decimal digits in a character list,
the first match of the regex of four digits used by extractYear. -/
def findFourDigits : List Char → Option String
  | a :: b :: d :: e :: rest =>
    if a.isDigit && b.isDigit && d.isDigit && e.isDigit then some (String.mk [a, b, d, e])
    else findFourDigits (b :: d :: e :: rest)
  | _ => none

/-- extractYear from the source: Unknown for a missing or empty date, the
full year of the parsed instant when parsing succeeds, and otherwise the
first four-consecutive-digit window, or Unknown when there is none. -/
def extractYear (parse : String → Option CalDate) : Option String → String
  | none => "Unknown"
  | some s =>
    if s = "" then "Unknown"
    else
      match parse s with
      | some d => toString d.year
      | none =>
        match findFourDigits s.data with
        | some y => y
        | none => "Unknown"

/-- Zero-pad a decimal rendering to two characters, modelling
String(n).padStart(2, the zero character). -/
def pad2 (n : Nat) : String :=
  if n < 10 then "0" ++ Nat.repr n else Nat.repr n

/-- extractYearMonth from the source: Unknown for a missing or empty date,
year-hyphen-zero-padded-month when parsing succeeds, and Unknown otherwise,
with no regex fallback. -/
def extractYearMonth (parse : String → Option CalDate) : Option String → String
  | none => "Unknown"
  | some s =>
    if s = "" then "Unknown"
    else
      match parse s with
      | some d => toString d.year ++ "-" ++ pad2 (d.month + 1)
      | none => "Unknown"

/-! ### Claim C5 -/

/-- C5: the date classifier returns Unknown for missing or empty input in
both forms; when calendar parsing fails, extractYear falls back to the first
window of four consecutive digits anywhere in the string and returns Unknown
when there is none, while extractYearMonth has no fallback and returns
Unknown; when parsing succeeds on a string, extractYearMonth returns the
year and the zero-padded 1-based month joined by a hyphen. -/
theorem dateClassifier_spec (parse : String → Option CalDate) (s t : String) (d : CalDate)
    (hs : s ≠ "") (hps : parse s = none) (ht : t ≠ "") (hpt : parse t = some d) :
    extractYear parse none = "Unknown"
      ∧ extractYear parse (some "") = "Unknown"
      ∧ extractYearMonth parse none = "Unknown"
      ∧ extractYearMonth parse (some "") = "Unknown"
      ∧ extractYear parse (some s) = (findFourDigits s.data).getD "Unknown"
      ∧ extractYearMonth parse (some s) = "Unknown"
      ∧ extractYear parse (some t) = toString d.year
      ∧ extractYearMonth parse (some t) = toString d.year ++ "-" ++ pad2 (d.month + 1) := by
  refine ⟨rfl, rfl, rfl, rfl, ?_, ?_, ?_, ?_⟩
  · show (if s = "" then "Unknown" else _) = _
    rw [if_neg hs, hps]
    cases findFourDigits s.data <;> rfl
  · show (if s = "" then "Unknown" else _) = _
    rw [if_neg hs, hps]
  · show (if t = "" then "Unknown" else _) = _
    rw [if_neg ht, hpt]
  · show (if t = "" then "Unknown" else _) = _
    rw [if_neg ht, hpt]

/-- A concrete parser for the C5 witness: it recognizes exactly the string
2024-07-15 as July 2024 and fails on everything else. -/
def sampleParse (s : String) : Option CalDate :=
  if s = "2024-07-15" then some ⟨2024, 6⟩ else none

/-- Concrete instance of the C5 theorem: the fallback extracts 1999 from a
non-calendar string and the success path renders the padded month. -/
theorem dateClassifier_spec_witness :
    extractYear sampleParse none = "Unknown"
      ∧ extractYear sampleParse (some "") = "Unknown"
      ∧ extractYearMonth sampleParse none = "Unknown"
      ∧ extractYearMonth sampleParse (some "") = "Unknown"
      ∧ extractYear sampleParse (some "visit 1999b") = (findFourDigits "visit 1999b".data).getD "Unknown"
      ∧ extractYearMonth sampleParse (some "visit 1999b") = "Unknown"
      ∧ extractYear sampleParse (some "2024-07-15") = toString (2024 : Int)
      ∧ extractYearMonth sampleParse (some "2024-07-15")
          = toString (2024 : Int) ++ "-" ++ pad2 (6 + 1) :=
  dateClassifier_spec sampleParse "visit 1999b" "2024-07-15" ⟨2024, 6⟩
    (by decide) (by decide) (by decide) (by decide)

/-! ### Query/filter engine -/

/-- True when the first list is a leading segment of the second. -/
def leadsWith : List Char → List Char → Bool
  | [], _ => true
  | _ :: _, [] => false
  | a :: as, b :: bs => a == b && leadsWith as bs

/-- True when the first list occurs contiguously inside the second, the
model of String.prototype.includes on the character lists. -/
def occursIn (needle : List Char) : List Char → Bool
  | [] => needle.isEmpty
  | c :: rest => leadsWith needle (c :: rest) || occursIn needle rest

/-- The search predicate of applyFilters on one record: the lower-cased
term occurs in the lower-cased marker, value or provider field, with the
empty string substituted for a missing field.  The argument is expected
lower-cased already, as in the source where term = searchTerm.toLowerCase().
-/
def matchesSearch (term : String) (r : Record) : Bool :=
  occursIn term.data (jsLower (r.marker.getD "")).data
    || occursIn term.data (jsLower (r.value.getD "")).data
    || occursIn term.data (jsLower (r.provider.getD "")).data

/-- applyFilters from the source: three sequential conditional filter
passes, skipped when the term is empty or the selection is the All
sentinel. -/
def applyFilters (parse : String → Option CalDate) (data : List Record)
    (searchTerm selectedProvider selectedYear : String) : List Record :=
  let f1 := if searchTerm = "" then data
    else data.filter (fun r => matchesSearch (jsLower searchTerm) r)
  let f2 := if selectedProvider = "All" then f1
    else f1.filter (fun r => r.provider == some selectedProvider)
  if selectedYear = "All" then f2
  else f2.filter (fun r => extractYear parse r.date == selectedYear)

/-! ### Claim C3 -/

/-- C3: the filter keeps exactly the records satisfying the conjunction of
the three predicates: the search term, when non-empty, occurs
case-insensitively in the marker, value or provider field; the provider
field equals the selection exactly unless the selection is All; and the
classified year equals the selection exactly unless the selection is All.
The single-filter form on the right makes the conjunction explicit and
shows that membership, multiplicity and order are exactly those of the
matching input records. -/
theorem applyFilters_spec (parse : String → Option CalDate) (data : List Record)
    (searchTerm selectedProvider selectedYear : String) :
    applyFilters parse data searchTerm selectedProvider selectedYear
      = data.filter (fun r =>
          (decide (searchTerm = "") || matchesSearch (jsLower searchTerm) r)
            && (decide (selectedProvider = "All") || r.provider == some selectedProvider)
            && (decide (selectedYear = "All") || extractYear parse r.date == selectedYear)) := by
  unfold applyFilters
  by_cases h1 : searchTerm = "" <;> by_cases h2 : selectedProvider = "All" <;>
    by_cases h3 : selectedYear = "All" <;>
      simp [h1, h2, h3, List.filter_filter, Bool.and_comm, Bool.and_left_comm, List.filter_true]

/-! ### Claim C4 -/

/-- C4: for every record set and filter specification the output of the
filter is a subsequence of the input, preserving order without duplication
or mutation; and the identity specification, empty term with both
selections All, returns the input unchanged. -/
theorem applyFilters_sublist (parse : String → Option CalDate) (data : List Record)
    (searchTerm selectedProvider selectedYear : String) :
    (applyFilters parse data searchTerm selectedProvider selectedYear).Sublist data
      ∧ applyFilters parse data "" "All" "All" = data := by
  constructor
  · unfold applyFilters
    by_cases h1 : searchTerm = "" <;> by_cases h2 : selectedProvider = "All" <;>
      by_cases h3 : selectedYear = "All" <;>
        simp only [h1, h2, h3, if_true, if_false] <;>
          first
            | exact List.Sublist.refl data
            | exact List.filter_sublist data
            | exact ((List.filter_sublist _).trans (List.filter_sublist _))
            | exact (((List.filter_sublist _).trans (List.filter_sublist _)).trans
                (List.filter_sublist _))
  · rfl

/-! ### Stable sorting

Array.prototype.sort is required to be stable, and the two comparators in
the source, b - a on counts and parseInt(b) - parseInt(a) on years, are
total preorders given by an integer key, largest first.  A stable sort by a
key is the unique permutation that is sorted by the key and keeps
equal-key elements in input order; it is embedded here as an insertion
sort that inserts each element before the equal-key elements that follow
it in the input. -/

/-- Insert an element into a list sorted by a descending key, before the
first element whose key is not larger. -/
def insDescBy (key : α → Int) (x : α) : List α → List α
  | [] => [x]
  | y :: ys => if key x < key y then y :: insDescBy key x ys else x :: y :: ys

/-- Stable sort by a descending integer key. -/
def sortDescBy (key : α → Int) : List α → List α
  | [] => []
  | x :: xs => insDescBy key x (sortDescBy key xs)

theorem insDescBy_perm (key : α → Int) (x : α) (l : List α) :
    (insDescBy key x l).Perm (x :: l) := by
  induction l with
  | nil => exact List.Perm.refl _
  | cons y ys ih =>
    unfold insDescBy
    split
    · exact (ih.cons y).trans (List.Perm.swap x y ys)
    · exact List.Perm.refl _

theorem sortDescBy_perm (key : α → Int) (l : List α) :
    (sortDescBy key l).Perm l := by
  induction l with
  | nil => exact List.Perm.refl _
  | cons x xs ih =>
    exact (insDescBy_perm key x (sortDescBy key xs)).trans (ih.cons x)

theorem insDescBy_pairwise (key : α → Int) (x : α) (l : List α)
    (h : l.Pairwise (fun a b => key b ≤ key a)) :
    (insDescBy key x l).Pairwise (fun a b => key b ≤ key a) := by
  induction l with
  | nil => simp [insDescBy]
  | cons y ys ih =>
    rw [List.pairwise_cons] at h
    unfold insDescBy
    split
    · rename_i hlt
      rw [List.pairwise_cons]
      refine ⟨?_, ih h.2⟩
      intro z hz
      rcases List.mem_cons.mp ((insDescBy_perm key x ys).mem_iff.mp hz) with hz | hz
      · rw [hz]; exact le_of_lt hlt
      · exact h.1 z hz
    · rename_i hge
      push_neg at hge
      rw [List.pairwise_cons]
      refine ⟨?_, List.pairwise_cons.mpr h⟩
      intro z hz
      rcases List.mem_cons.mp hz with hz | hz
      · rw [hz]; exact hge
      · exact le_trans (h.1 z hz) hge

theorem sortDescBy_pairwise (key : α → Int) (l : List α) :
    (sortDescBy key l).Pairwise (fun a b => key b ≤ key a) := by
  induction l with
  | nil => simp [sortDescBy]
  | cons x xs ih => exact insDescBy_pairwise key x _ ih

theorem insDescBy_filter_key (key : α → Int) (x : α) (l : List α) (c : Int) :
    (insDescBy key x l).filter (fun a => key a == c)
      = (x :: l).filter (fun a => key a == c) := by
  induction l with
  | nil => rfl
  | cons y ys ih =>
    unfold insDescBy
    split
    · rename_i hlt
      by_cases hx : key x = c
      · have hy : (key y == c) = false := by
          rw [beq_eq_false_iff_ne]
          intro hy
          rw [hx, hy] at hlt
          exact lt_irrefl c hlt
        simp only [List.filter_cons, hy, Bool.false_eq_true, if_false, ih]
      · have hx2 : (key x == c) = false := beq_eq_false_iff_ne.mpr hx
        simp only [List.filter_cons, hx2, Bool.false_eq_true, if_false, ih]
    · rfl

theorem sortDescBy_filter_key (key : α → Int) (l : List α) (c : Int) :
    (sortDescBy key l).filter (fun a => key a == c)
      = l.filter (fun a => key a == c) := by
  induction l with
  | nil => rfl
  | cons x xs ih =>
    unfold sortDescBy
    rw [insDescBy_filter_key, List.filter_cons, List.filter_cons, ih]

/-! ### The marker count table and its enumeration order -/

/-- The bucket a record is counted under: record.marker or-else Unknown, so
a missing or empty marker lands in the Unknown bucket. -/
def bucketMarker (r : Record) : String :=
  jsOrElse (r.marker.getD "") "Unknown"

/-- One update of the count object, markerCounts of the key becomes its
previous value or-else zero, plus one, on a table kept in property creation
order: increment in place when the key exists, append otherwise. -/
def jsUpsert : List (String × Nat) → String → List (String × Nat)
  | [], k => [(k, 1)]
  | (k2, n) :: rest, k =>
    if k2 = k then (k2, n + 1) :: rest else (k2, n) :: jsUpsert rest k

/-- The insertion-ordered count table built by the forEach loop of
aggregateTopMarkers. -/
def countTable (data : List Record) : List (String × Nat) :=
  data.foldl (fun t r => jsUpsert t (bucketMarker r)) []

/-- The count a table associates to a key, zero when absent. -/
def tableCount (t : List (String × Nat)) (m : String) : Nat :=
  (t.lookup m).getD 0

/-- True when the string is a canonical array index: the canonical decimal
rendering, without leading zeros, of an integer below 2 ^ 32 - 1.  Keys of
this shape are enumerated by Object.entries before all other keys, in
ascending numeric order. -/
def isArrayIndex (s : String) : Bool :=
  match s.data with
  | [] => false
  | [c] => c.isDigit
  | c :: rest => c.isDigit && c != '0' && rest.all Char.isDigit
      && decide (decVal (c :: rest) < 4294967295)

/-- The list Object.entries returns for an object whose properties were
created in the order of the table: array-index keys first in ascending
numeric order, then the remaining keys in creation order. -/
def jsEntries (t : List (String × Nat)) : List (String × Nat) :=
  sortDescBy (fun e => -(decVal e.1.data : Int)) (t.filter (fun e => isArrayIndex e.1))
    ++ t.filter (fun e => !isArrayIndex e.1)

/-- aggregateTopMarkers from the source: count markers, enumerate the count
object, sort by count descending with the stable host sort, truncate to
topN, and split into labels and counts. -/
def aggregateTopMarkers (data : List Record) (topN : Nat) : List String × List Nat :=
  let sorted := (sortDescBy (fun e => (e.2 : Int)) (jsEntries (countTable data))).take topN
  (sorted.map Prod.fst, sorted.map Prod.snd)

theorem tableCount_jsUpsert (t : List (String × Nat)) (k m : String) :
    tableCount (jsUpsert t k) m = tableCount t m + (if m = k then 1 else 0) := by
  induction t with
  | nil =>
    by_cases h : m = k
    · subst h; simp [jsUpsert, tableCount, List.lookup]
    · have hb : (m == k) = false := beq_eq_false_iff_ne.mpr h
      simp [jsUpsert, tableCount, List.lookup, h, hb]
  | cons e rest ih =>
    obtain ⟨k2, n⟩ := e
    by_cases h2 : k2 = k
    · subst h2
      by_cases h : m = k2
      · subst h; simp [jsUpsert, tableCount, List.lookup]
      · have hb : (m == k2) = false := beq_eq_false_iff_ne.mpr h
        simp [jsUpsert, tableCount, List.lookup, h, hb]
    · by_cases h : m = k2
      · subst h
        have hb : (m == m) = true := beq_self_eq_true m
        have hmk : ¬ m = k := h2
        simp [jsUpsert, tableCount, List.lookup, h2, hmk, hb]
      · simp only [jsUpsert, h2, if_false]
        have hbeq : (m == k2) = false := beq_eq_false_iff_ne.mpr h
        simp only [tableCount, List.lookup, hbeq] at ih ⊢
        exact ih

theorem mem_keys_jsUpsert (t : List (String × Nat)) (k m : String) :
    m ∈ (jsUpsert t k).map Prod.fst ↔ m ∈ t.map Prod.fst ∨ m = k := by
  induction t with
  | nil => simp [jsUpsert]
  | cons e rest ih =>
    obtain ⟨k2, n⟩ := e
    by_cases h2 : k2 = k
    · subst h2
      simp only [jsUpsert, if_true, List.map_cons, List.mem_cons]
      constructor
      · intro h; exact Or.inl h
      · rintro (h | h)
        · exact h
        · exact Or.inl h
    · simp only [jsUpsert, h2, if_false, List.map_cons, List.mem_cons, ih]
      tauto

theorem jsUpsert_pos (t : List (String × Nat)) (k : String)
    (h : ∀ e ∈ t, 1 ≤ e.2) : ∀ e ∈ jsUpsert t k, 1 ≤ e.2 := by
  induction t with
  | nil =>
    intro e he
    simp only [jsUpsert, List.mem_singleton] at he
    rw [he]
  | cons e2 rest ih =>
    obtain ⟨k2, n⟩ := e2
    intro e he
    by_cases h2 : k2 = k
    · simp only [jsUpsert, h2, if_true, List.mem_cons] at he
      rcases he with he | he
      · rw [he]; simp
      · exact h e (List.mem_cons_of_mem _ he)
    · simp only [jsUpsert, h2, if_false, List.mem_cons] at he
      rcases he with he | he
      · rw [he]; exact h (k2, n) (List.mem_cons_self _ _)
      · exact ih (fun e2 he2 => h e2 (List.mem_cons_of_mem _ he2)) e he

theorem countTable_go_tableCount (l : List Record) :
    ∀ (t : List (String × Nat)) (m : String),
      tableCount (l.foldl (fun t r => jsUpsert t (bucketMarker r)) t) m
        = tableCount t m + (l.map bucketMarker).count m := by
  induction l with
  | nil => intro t m; simp
  | cons r l ih =>
    intro t m
    rw [List.foldl_cons, ih, tableCount_jsUpsert, List.map_cons, List.count_cons]
    have heq : (if m = bucketMarker r then 1 else 0) = (if bucketMarker r == m then 1 else 0) := by
      by_cases h : m = bucketMarker r
      · subst h; simp
      · have hb : (bucketMarker r == m) = false := beq_eq_false_iff_ne.mpr (fun he => h he.symm)
        simp [h, hb]
    rw [heq]
    omega

theorem countTable_go_keys (l : List Record) :
    ∀ (t : List (String × Nat)) (m : String),
      m ∈ ((l.foldl (fun t r => jsUpsert t (bucketMarker r)) t).map Prod.fst)
        ↔ m ∈ t.map Prod.fst ∨ m ∈ l.map bucketMarker := by
  induction l with
  | nil => intro t m; simp
  | cons r l ih =>
    intro t m
    rw [List.foldl_cons, ih, mem_keys_jsUpsert, List.map_cons, List.mem_cons]
    tauto

theorem countTable_go_pos (l : List Record) :
    ∀ (t : List (String × Nat)), (∀ e ∈ t, 1 ≤ e.2) →
      ∀ e ∈ l.foldl (fun t r => jsUpsert t (bucketMarker r)) t, 1 ≤ e.2 := by
  induction l with
  | nil => intro t ht; exact ht
  | cons r l ih =>
    intro t ht
    rw [List.foldl_cons]
    exact ih _ (jsUpsert_pos t (bucketMarker r) ht)

/-! ### Insertion-ordered deduplication, the behavior of a JavaScript Set -/

/-- The element list of a JavaScript Set built from the list: every element
once, in order of first occurrence. -/
def jsSetList : List String → List String
  | [] => []
  | x :: xs => x :: (jsSetList xs).filter (fun y => y != x)

theorem mem_jsSetList (y : String) (l : List String) : y ∈ jsSetList l ↔ y ∈ l := by
  induction l with
  | nil => rfl
  | cons x xs ih =>
    by_cases h : y = x
    · subst h
      simp [jsSetList]
    · simp only [jsSetList, List.mem_cons, List.mem_filter, ih]
      constructor
      · rintro (hc | ⟨hc, _⟩)
        · exact Or.inl hc
        · exact Or.inr hc
      · rintro (hc | hc)
        · exact Or.inl hc
        · exact Or.inr ⟨hc, by simpa using h⟩

theorem nodup_jsSetList (l : List String) : (jsSetList l).Nodup := by
  induction l with
  | nil => exact List.nodup_nil
  | cons x xs ih =>
    rw [jsSetList, List.nodup_cons]
    refine ⟨?_, ih.filter _⟩
    intro hx
    rcases List.mem_filter.mp hx with ⟨_, hne⟩
    simp at hne

/-- Deduplication that also drops everything already in the seen list,
tracking first occurrences left to right. -/
def dedupSeen (seen : List String) : List String → List String
  | [] => []
  | x :: xs => if x ∈ seen then dedupSeen seen xs else x :: dedupSeen (seen ++ [x]) xs

theorem dedupSeen_eq_filter (l : List String) : ∀ (seen : List String),
    dedupSeen seen l = (jsSetList l).filter (fun y => decide (y ∉ seen)) := by
  induction l with
  | nil => intro seen; rfl
  | cons x xs ih =>
    intro seen
    by_cases h : x ∈ seen
    · rw [dedupSeen, if_pos h, ih, jsSetList, List.filter_cons]
      have hx : (decide (x ∉ seen)) = false := by simp [h]
      rw [hx]
      simp only [Bool.false_eq_true, if_false, List.filter_filter]
      apply List.filter_congr
      intro y _
      by_cases hy : y ∈ seen
      · simp [hy]
      · have : y ≠ x := fun he => hy (he ▸ h)
        simp [hy, this]
    · rw [dedupSeen, if_neg h, ih, jsSetList, List.filter_cons]
      have hx : (decide (x ∉ seen)) = true := by simp [h]
      rw [hx]
      simp only [if_true, List.filter_filter]
      congr 1
      apply List.filter_congr
      intro y _
      by_cases hy : y = x
      · subst hy
        simp
      · by_cases hs : y ∈ seen <;> simp [hs, hy]

theorem keys_jsUpsert_eq (t : List (String × Nat)) (k : String) :
    (jsUpsert t k).map Prod.fst
      = if k ∈ t.map Prod.fst then t.map Prod.fst else t.map Prod.fst ++ [k] := by
  induction t with
  | nil => simp [jsUpsert]
  | cons e rest ih =>
    obtain ⟨k2, n⟩ := e
    by_cases h2 : k2 = k
    · subst h2
      simp [jsUpsert]
    · simp only [jsUpsert, h2, if_false, List.map_cons, ih, List.mem_cons]
      have hne : ¬ (k = k2) := fun he => h2 he.symm
      by_cases h : k ∈ rest.map Prod.fst
      · simp [h, hne]
      · simp [h, hne]

theorem countTable_go_keys_order (l : List Record) :
    ∀ (t : List (String × Nat)),
      (l.foldl (fun t r => jsUpsert t (bucketMarker r)) t).map Prod.fst
        = t.map Prod.fst ++ dedupSeen (t.map Prod.fst) (l.map bucketMarker) := by
  induction l with
  | nil => intro t; simp [dedupSeen]
  | cons r l ih =>
    intro t
    rw [List.foldl_cons, ih, keys_jsUpsert_eq, List.map_cons]
    by_cases h : bucketMarker r ∈ t.map Prod.fst
    · rw [if_pos h, dedupSeen, if_pos h]
    · rw [if_neg h, dedupSeen, if_neg h]
      simp

/-- The keys of the count table are exactly the distinct marker buckets in
order of first occurrence: the property creation order of the count
object. -/
theorem countTable_keys_firstEncountered (data : List Record) :
    (countTable data).map Prod.fst = jsSetList (data.map bucketMarker) := by
  unfold countTable
  rw [countTable_go_keys_order data [], dedupSeen_eq_filter]
  simp [List.filter_congr]

/-! ### Claim C7 -/

/-- C7 (amended): aggregateTopMarkers counts occurrences of each record
marker with missing markers bucketed under Unknown, returns at most n
entries, sorted non-increasing by count; entries with equal counts appear
in the enumeration order of the count object, which is: markers that are
canonical array-index strings in ascending numeric order first, then the
remaining markers in first-encountered order.  The conjuncts give the
count-table correctness, the bound, the sortedness, the stable tie-break
relative to the enumeration order, that the enumeration permutes the
table, and that the table keys are the distinct buckets in
first-encountered order. -/
theorem topMarkers_spec (data : List Record) (n : Nat) :
    (aggregateTopMarkers data n).1.length ≤ n
      ∧ (aggregateTopMarkers data n).2.length ≤ n
      ∧ (aggregateTopMarkers data n).2.Pairwise (fun a b => b ≤ a)
      ∧ (∀ m, tableCount (countTable data) m = (data.map bucketMarker).count m)
      ∧ (∀ e ∈ countTable data, 1 ≤ e.2)
      ∧ (∀ c : Int,
          (sortDescBy (fun e => (e.2 : Int)) (jsEntries (countTable data))).filter
              (fun e => (e.2 : Int) == c)
            = (jsEntries (countTable data)).filter (fun e => (e.2 : Int) == c))
      ∧ (jsEntries (countTable data)).Perm (countTable data)
      ∧ (countTable data).map Prod.fst = jsSetList (data.map bucketMarker) := by
  refine ⟨?_, ?_, ?_, ?_, ?_, ?_, ?_, countTable_keys_firstEncountered data⟩
  · unfold aggregateTopMarkers
    simp only [List.length_map, List.length_take]
    exact min_le_left _ _
  · unfold aggregateTopMarkers
    simp only [List.length_map, List.length_take]
    exact min_le_left _ _
  · unfold aggregateTopMarkers
    simp only []
    rw [List.pairwise_map]
    have hs := sortDescBy_pairwise (fun e : String × Nat => (e.2 : Int)) (jsEntries (countTable data))
    have ht : ((sortDescBy (fun e : String × Nat => (e.2 : Int))
        (jsEntries (countTable data))).take n).Pairwise
          (fun a b => ((b.2 : Int) ≤ (a.2 : Int))) :=
      hs.sublist (List.take_sublist n _) |>.imp (fun h => h) |>.imp (fun h => h)
    exact ht.imp (fun h => Int.ofNat_le.mp h)
  · intro m
    have h := countTable_go_tableCount data [] m
    simpa [tableCount, List.lookup] using h
  · exact countTable_go_pos data [] (by intro e he; cases he)
  · intro c
    exact sortDescBy_filter_key (fun e : String × Nat => (e.2 : Int)) _ c
  · unfold jsEntries
    refine List.Perm.trans ?_ (List.filter_append_perm (fun e => isArrayIndex e.1) (countTable data))
    exact (sortDescBy_perm _ _).append_right _

/-- The two-record input whose markers are the numeric strings 2 and 1, on
which the enumeration order of the count object is numeric ascending, not
first-encountered. -/
def tieBreakData : List Record :=
  [{ marker := some "2" }, { marker := some "1" }]

/-- C7 counterexample: on tieBreakData both markers have count 1, the
first-encountered order of the markers is 2 then 1, but aggregateTopMarkers
returns the labels as 1 then 2, because Object.entries enumerates
array-index keys in ascending numeric order before insertion order applies.
So entries with equal counts do not in general appear in first-encountered
order of their markers. -/
theorem topMarkers_tieBreak_counterexample :
    (aggregateTopMarkers tieBreakData 10).2 = [1, 1]
      ∧ jsSetList (tieBreakData.map bucketMarker) = ["2", "1"]
      ∧ (aggregateTopMarkers tieBreakData 10).1 = ["1", "2"]
      ∧ (aggregateTopMarkers tieBreakData 10).1 ≠ jsSetList (tieBreakData.map bucketMarker) := by
  refine ⟨?_, ?_, ?_, ?_⟩ <;> decide

/-! ### The year dropdown list -/

/-- The classified year of every record, in record order. -/
def yearsOf (parse : String → Option CalDate) (data : List Record) : List String :=
  data.map (fun r => extractYear parse r.date)

/-- The sort key of the year dropdown comparator, parseInt of the year
string; the classifier only produces strings on which parseInt succeeds,
and zero stands in for the unreachable NaN. -/
def yearVal (y : String) : Int :=
  (jsParseInt y).getD 0

/-- yearList from the source: the distinct classified years in first-seen
order, the non-Unknown ones sorted by parseInt descending with the stable
host sort, preceded by the All sentinel and followed by Unknown when
present. -/
def yearList (parse : String → Option CalDate) (data : List Record) : List String :=
  "All" :: (sortDescBy yearVal ((jsSetList (yearsOf parse data)).filter (fun y => y != "Unknown"))
    ++ (if (jsSetList (yearsOf parse data)).contains "Unknown" then ["Unknown"] else []))

/-! ### Claim C9 -/

/-- C9: the year dropdown begins with the All sentinel, continues with the
distinct classified years sorted numerically descending, and ends with
Unknown exactly when at least one record classifies to Unknown; the middle
segment has no duplicates, excludes Unknown, and contains precisely the
years classified from the data. -/
theorem yearList_spec (parse : String → Option CalDate) (data : List Record) :
    ∃ ys, yearList parse data
        = "All" :: (ys ++ (if "Unknown" ∈ yearsOf parse data then ["Unknown"] else []))
      ∧ ys.Pairwise (fun a b => yearVal b ≤ yearVal a)
      ∧ ys.Nodup
      ∧ (∀ y, y ∈ ys ↔ (y ≠ "Unknown" ∧ y ∈ yearsOf parse data)) := by
  refine ⟨sortDescBy yearVal ((jsSetList (yearsOf parse data)).filter (fun y => y != "Unknown")),
    ?_, ?_, ?_, ?_⟩
  · unfold yearList
    have hc : ((jsSetList (yearsOf parse data)).contains "Unknown" = true)
        ↔ ("Unknown" ∈ yearsOf parse data) := by
      simp [List.contains, mem_jsSetList]
    rw [if_congr hc rfl rfl]
  · exact sortDescBy_pairwise yearVal _
  · exact ((sortDescBy_perm yearVal _).nodup_iff).mpr
      ((nodup_jsSetList _).filter _)
  · intro y
    rw [(sortDescBy_perm yearVal _).mem_iff, List.mem_filter, mem_jsSetList]
    constructor
    · rintro ⟨hm, hne⟩
      exact ⟨by simpa using hne, hm⟩
    · rintro ⟨hne, hm⟩
      exact ⟨hm, by simpa using hne⟩

/-! ### Session state: the ingestion boundary and the clear operation -/

/-- One non-fatal parse warning, row number and message. -/
structure ParseErr where
  row : Nat
  message : String
deriving DecidableEq

/-- The result object the CSV parser hands to the complete callback: the
parsed rows and the list of non-fatal errors. -/
structure ParseResults where
  data : List Record
  errors : List ParseErr
deriving DecidableEq

/-- The component state held in the useState hooks. -/
structure DashState where
  data : List Record
  filteredData : List Record
  searchTerm : String
  selectedProvider : String
  selectedYear : String
  error : String
  isLoading : Bool
  parseErrors : List ParseErr
deriving DecidableEq

/-- parseCSVData from the source, with the parser itself abstract: set
loading and clear the messages, run the parser, store at most five
warnings, and either surface the no-data message leaving the record set
alone, or materialize the rows and replace the record set. -/
def parseCSVData (papa : String → ParseResults) (st : DashState) (csvText : String) : DashState :=
  let results := papa csvText
  let st1 := { st with isLoading := true, error := "", parseErrors := [] }
  let st2 := { st1 with isLoading := false }
  let st3 := if results.errors.isEmpty then st2
    else { st2 with parseErrors := results.errors.take 5 }
  if results.data.isEmpty then { st3 with error := "No data found in the CSV file." }
  else { st3 with data := results.data.map materializeRow }

/-- clearData from the source: empty both record sets, reset the term and
both selections, and clear the messages. -/
def clearData (st : DashState) : DashState :=
  { st with
    data := []
    filteredData := []
    searchTerm := ""
    selectedProvider := "All"
    selectedYear := "All"
    error := ""
    parseErrors := [] }

/-! ### Claim C8 -/

/-- C8: when the parse completes structurally but yields zero data rows,
the ingestion boundary sets the distinct no-data user message and leaves
the record set exactly as it was: the load operation does not replace the
previously loaded records. -/
theorem parseCSVData_empty_spec (papa : String → ParseResults) (st : DashState)
    (csvText : String) (h : (papa csvText).data = []) :
    (parseCSVData papa st csvText).error = "No data found in the CSV file."
      ∧ (parseCSVData papa st csvText).data = st.data := by
  unfold parseCSVData
  have hd : (papa csvText).data.isEmpty = true := by
    rw [h]; rfl
  rw [if_pos hd]
  by_cases he : (papa csvText).errors.isEmpty = true <;> simp [he]

/-- A parser returning no rows and one warning, for the C8 witness. -/
def emptyPapa (_ : String) : ParseResults :=
  { data := [], errors := [{ row := 2, message := "Too few fields" }] }

/-- A state holding one previously loaded record, for the C8 witness. -/
def loadedState : DashState :=
  { data := [{ marker := some "WBC" }]
    filteredData := [{ marker := some "WBC" }]
    searchTerm := ""
    selectedProvider := "All"
    selectedYear := "All"
    error := ""
    isLoading := false
    parseErrors := [] }

/-- Concrete instance of the C8 theorem: loading an empty parse result over
a loaded state surfaces the no-data message and keeps the record. -/
theorem parseCSVData_empty_spec_witness :
    (parseCSVData emptyPapa loadedState "x").error = "No data found in the CSV file."
      ∧ (parseCSVData emptyPapa loadedState "x").data = loadedState.data :=
  parseCSVData_empty_spec emptyPapa loadedState "x" rfl

/-! ### Claim C10 -/

/-- C10: the clear operation resets the session in one step: both record
sets become empty, the search term becomes empty, both selections return
to the All sentinel, and the error message and the warning list are
cleared; the loading flag is the only field it leaves as it was. -/
theorem clearData_spec (st : DashState) :
    (clearData st).data = []
      ∧ (clearData st).filteredData = []
      ∧ (clearData st).searchTerm = ""
      ∧ (clearData st).selectedProvider = "All"
      ∧ (clearData st).selectedYear = "All"
      ∧ (clearData st).error = ""
      ∧ (clearData st).parseErrors = []
      ∧ (clearData st).isLoading = st.isLoading :=
  ⟨rfl, rfl, rfl, rfl, rfl, rfl, rfl, rfl⟩

/-! ### The classifier only emits years that parseInt accepts

These lemmas justify the NaN default inside yearVal: every string the
classifier can contribute to the year dropdown other than Unknown is
accepted by the parseInt model, so the year comparator never sees NaN. -/

theorem digitChar_isDigit (n : Nat) (h : n < 10) : (Nat.digitChar n).isDigit = true := by
  interval_cases n <;> decide

theorem toDigitsCore_digits : ∀ (f n : Nat) (acc : List Char),
    (∀ c ∈ acc, c.isDigit = true) →
    ∀ c ∈ Nat.toDigitsCore 10 f n acc, c.isDigit = true := by
  intro f
  induction f with
  | zero => intro n acc hacc; simpa [Nat.toDigitsCore] using hacc
  | succ f ih =>
    intro n acc hacc
    simp only [Nat.toDigitsCore]
    split
    · intro c hc
      rcases List.mem_cons.mp hc with hc | hc
      · rw [hc]; exact digitChar_isDigit _ (Nat.mod_lt _ (by omega))
      · exact hacc c hc
    · apply ih
      intro c hc
      rcases List.mem_cons.mp hc with hc | hc
      · rw [hc]; exact digitChar_isDigit _ (Nat.mod_lt _ (by omega))
      · exact hacc c hc

theorem natRepr_digits (n : Nat) : ∀ c ∈ (Nat.repr n).data, c.isDigit = true := by
  intro c hc
  have : (Nat.repr n).data = Nat.toDigits 10 n := rfl
  rw [this] at hc
  exact toDigitsCore_digits _ _ [] (by intro c hc; cases hc) c hc

theorem natRepr_data_ne_nil (n : Nat) : (Nat.repr n).data ≠ [] := by
  intro hc
  have h := toDigits_len_ge n
  have : (Nat.repr n).data = Nat.toDigits 10 n := rfl
  rw [this] at hc
  rw [hc] at h
  simp at h

theorem isDigit_not_ws {c : Char} (h : c.isDigit = true) : isWsChar c = false := by
  have hne : ∀ d : Char, d.isDigit = false → (c == d) = false := by
    intro d hd
    rw [beq_eq_false_iff_ne]
    intro he
    rw [he] at h
    rw [h] at hd
    cases hd
  unfold isWsChar
  rw [hne ' ' (by decide), hne '\t' (by decide), hne '\n' (by decide),
    hne '\r' (by decide), hne '\x0b' (by decide), hne '\x0c' (by decide)]
  rfl

theorem jsParseInt_digits_isSome (s : String) (hne : s.data ≠ [])
    (hd : ∀ c ∈ s.data, c.isDigit = true) : (jsParseInt s).isSome = true := by
  unfold jsParseInt
  cases hld : s.data with
  | nil => exact absurd hld hne
  | cons c rest =>
    have hc : c.isDigit = true := hd c (hld ▸ List.mem_cons_self _ _)
    have hcw : isWsChar c = false := isDigit_not_ws hc
    rw [List.dropWhile_cons, hcw]
    simp only [Bool.false_eq_true, if_false]
    have hcm : ¬ (c = '-') := by
      intro he; rw [he] at hc; exact absurd hc (by decide)
    have hcp : ¬ (c = '+') := by
      intro he; rw [he] at hc; exact absurd hc (by decide)
    rw [if_neg hcm, if_neg hcp]
    unfold parseDigits
    rw [List.takeWhile_cons, hc]
    simp

theorem jsParseInt_intRepr_isSome (i : Int) : (jsParseInt (toString i)).isSome = true := by
  cases i with
  | ofNat m =>
    exact jsParseInt_digits_isSome (Nat.repr m) (natRepr_data_ne_nil m) (natRepr_digits m)
  | negSucc m =>
    show (jsParseInt ("-" ++ Nat.repr (m + 1))).isSome = true
    unfold jsParseInt
    have hdm : ("-" ++ Nat.repr (m + 1)).data = '-' :: (Nat.repr (m + 1)).data := rfl
    rw [hdm, List.dropWhile_cons]
    have : isWsChar '-' = false := by decide
    rw [this]
    simp only [Bool.false_eq_true, if_false, if_pos rfl]
    unfold parseDigits
    cases hld : (Nat.repr (m + 1)).data with
    | nil => exact absurd hld (natRepr_data_ne_nil _)
    | cons c rest =>
      have hc : c.isDigit = true := natRepr_digits (m + 1) c (hld ▸ List.mem_cons_self _ _)
      rw [List.takeWhile_cons, hc]
      simp

theorem findFourDigits_digits : ∀ (l : List Char) (y : String), findFourDigits l = some y →
    y.data ≠ [] ∧ ∀ c ∈ y.data, c.isDigit = true := by
  intro l
  induction l with
  | nil => intro y hy; cases hy
  | cons a rest ih =>
    intro y hy
    rcases rest with _ | ⟨b, rest2⟩
    · simp [findFourDigits] at hy
    · rcases rest2 with _ | ⟨d, rest3⟩
      · simp [findFourDigits] at hy
      · rcases rest3 with _ | ⟨e, rest4⟩
        · simp [findFourDigits] at hy
        · by_cases hcond : (a.isDigit && b.isDigit && d.isDigit && e.isDigit) = true
          · simp only [findFourDigits] at hy
            rw [if_pos hcond] at hy
            obtain ⟨h1, h2, h3, h4⟩ : a.isDigit = true ∧ b.isDigit = true
                ∧ d.isDigit = true ∧ e.isDigit = true := by
              simpa [Bool.and_eq_true, and_assoc] using hcond
            obtain rfl := Option.some.inj hy
            refine ⟨by simp, ?_⟩
            intro x hx
            have hxm : x = a ∨ x = b ∨ x = d ∨ x = e := by simpa using hx
            rcases hxm with rfl | rfl | rfl | rfl
            · exact h1
            · exact h2
            · exact h3
            · exact h4
          · simp only [findFourDigits] at hy
            rw [if_neg hcond] at hy
            exact ih y hy

/-- Every classified year other than Unknown is accepted by the parseInt
model, so the comparator of the year dropdown never compares a NaN. -/
theorem jsParseInt_extractYear_isSome (parse : String → Option CalDate) (d : Option String)
    (h : extractYear parse d ≠ "Unknown") :
    (jsParseInt (extractYear parse d)).isSome = true := by
  cases d with
  | none => exact absurd rfl h
  | some s =>
    by_cases hs : s = ""
    · subst hs; exact absurd rfl h
    · have hform : extractYear parse (some s)
          = (if s = "" then "Unknown" else
              match parse s with
              | some cd => toString cd.year
              | none =>
                match findFourDigits s.data with
                | some y => y
                | none => "Unknown") := rfl
      rw [hform, if_neg hs] at h ⊢
      revert h
      cases hp : parse s with
      | some cd =>
        intro h
        exact jsParseInt_intRepr_isSome cd.year
      | none =>
        cases hf : findFourDigits s.data with
        | none =>
          intro h
          exact absurd rfl h
        | some y =>
          intro h
          obtain ⟨hne, hdig⟩ := findFourDigits_digits s.data y hf
          exact jsParseInt_digits_isSome y hne hdig

end HealthDashboard
